import Mathlib

/-!
Verification of the interpreter driver in `crates/interpreter/src/interpreter.rs`:
the shell that owns execution state (gas meter, operand stack, shared memory,
return buffer, pending action), dispatches the stack-VM step loop or the RISC
emulator trap loop, and reconciles sub-call / create outcomes on re-entry.

The interpreter driver itself (`Interpreter::new`, `run`, `insert_call_outcome`,
`insert_create_outcome`, `insert_eofcreate_outcome`, `resize_memory`) is
translated from the source.  Supporting components that live in other files of
the repository (gas meter, operand stack, shared memory, outcome types, the
`push!`/`return_ok!`/`return_revert!` macros) and the out-of-scope RISC emulator
internals are modelled from the specification, as marked on each definition.

Machine integers are modelled as `Nat` with explicit `% 2^64` where u64
overflow matters; code that panics in Rust is modelled with `Option`
(`none` = panic).
-/

namespace Revm

/-- Modelled from the spec: the instruction-result sum type covering
`Continue`, the success class (`Stop`, `Return`, `SelfDestruct`,
`ReturnContract`), the revert class (`Revert`, `CallTooDeep`, `OutOfFunds`),
`FatalExternalError`, and categorized errors (out-of-gas, stack overflow);
the full enum lives outside `src/`. -/
inductive InstructionResult where
  | Continue
  | Stop
  | Return
  | SelfDestruct
  | ReturnContract
  | Revert
  | CallTooDeep
  | OutOfFunds
  | FatalExternalError
  | StackOverflow
  | OutOfGas
  | CallOrCreate
deriving DecidableEq, Repr

/-- Modelled from the spec: the `return_ok!()` macro pattern (success class). -/
def InstructionResult.is_ok : InstructionResult → Bool
  | .Stop | .Return | .SelfDestruct | .ReturnContract => true
  | _ => false

/-- Modelled from the spec: the `return_revert!()` macro pattern (revert class). -/
def InstructionResult.is_revert : InstructionResult → Bool
  | .Revert | .CallTooDeep | .OutOfFunds => true
  | _ => false

/-- Modelled from the spec: the gas meter, holding `remaining` and the refund
counter.  `record_cost` deducts and reports whether it fit, `erase_cost`
credits unspent sub-call gas back (u64 arithmetic, wrapping), `record_refund`
accumulates refunds.  The `Gas` struct lives outside `src/`. -/
structure Gas where
  remaining : Nat
  refunded : Int
deriving DecidableEq, Repr

/-- Modelled from the spec: a fresh meter holding the full gas limit. -/
def Gas.new (limit : Nat) : Gas := ⟨limit, 0⟩

/-- Modelled from the spec: deduct `cost`; returns whether it fit. -/
def Gas.record_cost (g : Gas) (cost : Nat) : Bool × Gas :=
  if cost ≤ g.remaining then (true, ⟨g.remaining - cost, g.refunded⟩) else (false, g)

/-- Modelled from the spec: credit unspent gas back (u64 wrapping add). -/
def Gas.erase_cost (g : Gas) (returned : Nat) : Gas :=
  ⟨(g.remaining + returned) % 2 ^ 64, g.refunded⟩

/-- Modelled from the spec: accumulate a refund. -/
def Gas.record_refund (g : Gas) (refund : Int) : Gas :=
  ⟨g.remaining, g.refunded + refund⟩

/-- Modelled from the spec: operand-stack capacity (`STACK_LIMIT = 1024`). -/
def STACK_LIMIT : Nat := 1024

/-- Modelled from the spec: `num_words` rounds a byte size up to a whole
number of 32-byte words (`shared_memory.rs`, outside `src/`). -/
def num_words (n : Nat) : Nat := (n + 31) / 32

/-- Modelled from the spec: the quadratic memory-expansion cost curve
`3 * words + words^2 / 512` (`gas.rs`, outside `src/`). -/
def memory_gas (words : Nat) : Nat := 3 * words + words * words / 512

/-- Modelled from the spec: the shared memory's current expansion cost,
derived from its byte length (`shared_memory.rs`, outside `src/`). -/
def current_expansion_cost (memory : List Nat) : Nat :=
  memory_gas (num_words memory.length)

/-- Modelled from the spec: grow the buffer to `new_size` bytes zero-filled
(truncating if smaller), as `SharedMemory::resize` does. -/
def memResize (memory : List Nat) (new_size : Nat) : List Nat :=
  if new_size ≤ memory.length then memory.take new_size
  else memory ++ List.replicate (new_size - memory.length) 0

/-- Modelled from the spec: `SharedMemory::slice(offset, size)`; out-of-bounds
access is a panic (`none`). -/
def memSlice (memory : List Nat) (offset size : Nat) : Option (List Nat) :=
  if offset + size ≤ memory.length then some ((memory.drop offset).take size)
  else none

/-- Modelled from the spec: `SharedMemory::set(offset, data)` copies `data`
into the buffer at `offset`; a no-op for empty data, a panic (`none`) when the
write would fall outside the buffer. -/
def memSet (memory : List Nat) (offset : Nat) (data : List Nat) : Option (List Nat) :=
  if data = [] then some memory
  else if offset + data.length ≤ memory.length then
    some (memory.take offset ++ data ++ memory.drop (offset + data.length))
  else none

/-- From the source (`resize_memory`, interpreter.rs): round `new_size` up to
words, charge the delta between the new and current expansion cost (u64
subtraction, wrapping), and grow the buffer on success.  Returns the success
flag together with the resulting memory and gas meter. -/
def resize_memory (memory : List Nat) (gas : Gas) (new_size : Nat) :
    Bool × List Nat × Gas :=
  let new_words := num_words new_size
  let new_cost := memory_gas new_words
  let current_cost := current_expansion_cost memory
  let cost := (2 ^ 64 + new_cost - current_cost) % 2 ^ 64
  let rc := gas.record_cost cost
  if rc.1 then (true, memResize memory (new_words * 32), rc.2)
  else (false, memory, rc.2)

theorem memResize_length (memory : List Nat) (n : Nat) :
    (memResize memory n).length = n := by
  unfold memResize
  split
  · simpa [List.length_take] using Nat.min_eq_left (by assumption)
  · simp only [List.length_append, List.length_replicate]
    omega

/-- C6: `resize_memory` rounds `new_size` up to whole 32-byte words, charges
the gas meter the difference between the quadratic expansion cost of the new
word count and the current expansion cost, and returns `true` iff that charge
fit in remaining gas; on `true` the memory length becomes exactly
`num_words new_size * 32` (a multiple of 32) and on `false` the memory is
unchanged.  Stated under the hypotheses that the claim's "difference" is
well-defined (new cost at least current cost) and fits in a u64. -/
theorem resize_memory_spec (memory : List Nat) (gas : Gas) (new_size : Nat)
    (hmono : current_expansion_cost memory ≤ memory_gas (num_words new_size))
    (hfit : memory_gas (num_words new_size) < 2 ^ 64) :
    ((resize_memory memory gas new_size).1 =
      decide (memory_gas (num_words new_size) - current_expansion_cost memory
        ≤ gas.remaining)) ∧
    ((resize_memory memory gas new_size).1 = true →
      (resize_memory memory gas new_size).2.1.length = num_words new_size * 32 ∧
      32 ∣ (resize_memory memory gas new_size).2.1.length ∧
      (resize_memory memory gas new_size).2.2.remaining =
        gas.remaining -
          (memory_gas (num_words new_size) - current_expansion_cost memory) ∧
      (resize_memory memory gas new_size).2.2.refunded = gas.refunded) ∧
    ((resize_memory memory gas new_size).1 = false →
      (resize_memory memory gas new_size).2.1 = memory ∧
      (resize_memory memory gas new_size).2.2 = gas) := by
  have hcost : (2 ^ 64 + memory_gas (num_words new_size) -
      current_expansion_cost memory) % 2 ^ 64 =
      memory_gas (num_words new_size) - current_expansion_cost memory := by
    have h1 : 2 ^ 64 + memory_gas (num_words new_size) -
        current_expansion_cost memory =
        2 ^ 64 + (memory_gas (num_words new_size) -
          current_expansion_cost memory) := by omega
    have h2 : memory_gas (num_words new_size) -
        current_expansion_cost memory < 2 ^ 64 := by omega
    rw [h1, Nat.add_mod_left, Nat.mod_eq_of_lt h2]
  have hr : resize_memory memory gas new_size =
      if memory_gas (num_words new_size) - current_expansion_cost memory
          ≤ gas.remaining then
        (true, memResize memory (num_words new_size * 32),
          ⟨gas.remaining -
            (memory_gas (num_words new_size) - current_expansion_cost memory),
           gas.refunded⟩)
      else (false, memory, gas) := by
    unfold resize_memory Gas.record_cost
    simp only [hcost]
    by_cases h : memory_gas (num_words new_size) -
        current_expansion_cost memory ≤ gas.remaining
    · simp [h]
    · simp [h]
  rw [hr]
  split_ifs with h
  · refine ⟨by simp [h], fun _ => ⟨memResize_length _ _, ?_, rfl, rfl⟩, by simp⟩
    show 32 ∣ (memResize memory (num_words new_size * 32)).length
    rw [memResize_length]
    exact dvd_mul_left 32 (num_words new_size)
  · exact ⟨by simp [h], by simp, fun _ => ⟨rfl, rfl⟩⟩

/-- Witness for C6 at a concrete input: memory of 32 bytes grown to 64. -/
theorem resize_memory_spec_witness :
    (current_expansion_cost (List.replicate 32 0) ≤ memory_gas (num_words 64)) ∧
    ((resize_memory (List.replicate 32 0) (Gas.new 100) 64).1 = true ∧
      (resize_memory (List.replicate 32 0) (Gas.new 100) 64).2.1.length = 64 ∧
      (resize_memory (List.replicate 32 0) (Gas.new 100) 64).2.2.remaining = 97) := by
  have h := resize_memory_spec (List.replicate 32 0) (Gas.new 100) 64
    (by decide) (by decide)
  refine ⟨by decide, ?_, ?_, ?_⟩
  · have : decide ((memory_gas (num_words 64) -
        current_expansion_cost (List.replicate 32 0)) ≤ (Gas.new 100).remaining) = true := by
      decide
    exact h.1.trans this
  · exact (h.2.1 (by decide)).1
  · have h2 := (h.2.1 (by decide)).2.2.1
    simpa using h2

/-- From the source: the result of an interpreter operation
(`InterpreterResult`): instruction result, output bytes, gas state. -/
structure InterpreterResult where
  result : InstructionResult
  output : List Nat
  gas : Gas
deriving DecidableEq, Repr

/-- Modelled from the spec: `CallScheme` for sub-call inputs (the enum lives
outside `src/`); only the plain `Call` variant is produced by this core. -/
inductive CallScheme where
  | Call
  | CallCode
  | DelegateCall
  | StaticCall
deriving DecidableEq, Repr

/-- Modelled from the spec: `CallValue` (transferred or apparent value);
the type lives outside `src/`. -/
inductive CallValue where
  | Transfer (amount : Nat)
  | Apparent (amount : Nat)
deriving DecidableEq, Repr

/-- Modelled from the spec: the inputs of a sub-call action (`CallInputs`,
outside `src/`); addresses are 160-bit numbers, `return_memory_offset` is the
half-open range start/length pair `(start, size)` with start `0` here. -/
structure CallInputs where
  input : List Nat
  gas_limit : Nat
  target_address : Nat
  bytecode_address : Nat
  caller : Nat
  value : CallValue
  scheme : CallScheme
  is_static : Bool
  is_eof : Bool
  return_memory_offset : Nat × Nat
deriving DecidableEq, Repr

/-- From the source: the pending action the driver yields
(`InterpreterAction`).  Create and EOF-create inputs are produced by opcode
handlers outside this core, so their payloads are not modelled. -/
inductive InterpreterAction where
  | None
  | Return (result : InterpreterResult)
  | Call (inputs : CallInputs)
  | Create
  | EOFCreate
deriving DecidableEq, Repr

/-- From the source: `InterpreterAction::is_some`. -/
def InterpreterAction.is_some : InterpreterAction → Bool
  | .None => false
  | _ => true

/-- Modelled from the spec: outcome of an external sub-call (`CallOutcome`,
outside `src/`): an interpreter result plus the memory range
(start, length) where output is placed back. -/
structure CallOutcome where
  result : InterpreterResult
  memoryStart : Nat
  memoryLength : Nat
deriving DecidableEq, Repr

def CallOutcome.instruction_result (o : CallOutcome) : InstructionResult := o.result.result

def CallOutcome.output (o : CallOutcome) : List Nat := o.result.output

def CallOutcome.gas (o : CallOutcome) : Gas := o.result.gas

def CallOutcome.memory_start (o : CallOutcome) : Nat := o.memoryStart

def CallOutcome.memory_length (o : CallOutcome) : Nat := o.memoryLength

/-- Modelled from the spec: outcome of a contract creation (`CreateOutcome`,
outside `src/`): an interpreter result plus the optional created address. -/
structure CreateOutcome where
  result : InterpreterResult
  address : Option Nat
deriving DecidableEq, Repr

def CreateOutcome.instruction_result (o : CreateOutcome) : InstructionResult := o.result.result

def CreateOutcome.output (o : CreateOutcome) : List Nat := o.result.output

def CreateOutcome.gas (o : CreateOutcome) : Gas := o.result.gas

/-- Modelled from the spec: outcome of an EOF (section-format) creation
(`EOFCreateOutcome`, outside `src/`); the address is always present. -/
structure EOFCreateOutcome where
  result : InterpreterResult
  address : Nat
deriving DecidableEq, Repr

def EOFCreateOutcome.instruction_result (o : EOFCreateOutcome) : InstructionResult := o.result.result

def EOFCreateOutcome.output (o : EOFCreateOutcome) : List Nat := o.result.output

def EOFCreateOutcome.gas (o : EOFCreateOutcome) : Gas := o.result.gas

/-- Modelled from the spec: one outcome of a call to the RISC emulator's
`start()` trap interface: either an environment call from machine mode,
exposing the integer register file at the trap, or any other exception.  The
emulator's CPU/bus internals are a black box outside this core. -/
inductive StartRes where
  | ecall (xregs : List Nat)
  | nonEcall
deriving DecidableEq, Repr

/-- Modelled from the spec: the RISC emulator as seen by the adapter: an
integer register file, DRAM bytes, and the (black-box) sequence of outcomes
its `start()` method will produce. -/
structure Emu where
  xregs : List Nat
  dram : List Nat
  script : List StartRes
deriving DecidableEq, Repr

/-- From the source: the driver's RISC emulator slot: the emulator instance
and the pending `returned_data_destiny` byte range `(start, stop)` of the
emulator's address space. -/
structure RVEmu where
  emu : Emu
  returned_data_destiny : Option (Nat × Nat)
deriving DecidableEq, Repr

/-- Modelled from the spec: read integer register `i` (`emu.cpu.xregs.read`). -/
def xread (xregs : List Nat) (i : Nat) : Nat := xregs.getD i 0

/-- Modelled from the spec: write integer register `i` (`emu.cpu.xregs.write`). -/
def xwrite (xregs : List Nat) (i v : Nat) : List Nat := xregs.set i v

/-- Modelled from the spec: `emu.cpu.bus.get_dram_slice(a..b)`: the DRAM bytes
of the half-open range, `none` when the range is not addressable. -/
def getDramSlice (dram : List Nat) (a b : Nat) : Option (List Nat) :=
  if a ≤ b ∧ b ≤ dram.length then some ((dram.drop a).take (b - a)) else none

/-- Write `data` into DRAM starting at `a` (the effect of
`copy_from_slice` on a mutable DRAM slice). -/
def writeDram (dram : List Nat) (a : Nat) (data : List Nat) : List Nat :=
  dram.take a ++ data ++ dram.drop (a + data.length)

/-- Modelled from the spec: `setup_from_elf` builds an emulator from the
executable image and the contract's input (emulator internals are out of
scope; registers zeroed, no trap script). -/
def setup_from_elf (image input : List Nat) : Emu :=
  ⟨List.replicate 32 0, image ++ input, []⟩

/-- Modelled from the spec: the contract descriptor (`Contract`, outside
`src/`): code, input, identities, value, and the section-format
classification bit supplied by the analysis layer. -/
structure Contract where
  input : List Nat
  bytecode : List Nat
  target_address : Nat
  caller_address : Nat
  value : Nat
  bytecodeIsEof : Bool
deriving DecidableEq, Repr

/-- From the source: the interpreter driver state.  The raw instruction
pointer is modelled as a byte offset into `bytecode`; the operand stack as a
top-first list of 256-bit words; shared memory as its byte list. -/
structure Interpreter where
  instruction_pc : Nat
  gas : Gas
  contract : Contract
  instruction_result : InstructionResult
  bytecode : List Nat
  is_eof : Bool
  is_eof_init : Bool
  shared_memory : List Nat
  stack : List Nat
  function_stack : List (Nat × Nat)
  return_data_buffer : List Nat
  is_static : Bool
  next_action : InterpreterAction
  riscv_emulator : Option RVEmu
deriving DecidableEq, Repr

/-- Modelled from the spec: the `push!`/`push_b256!` macro behaviour on the
bounded operand stack when the push is the final operation of the enclosing
branch (as in `insert_call_outcome`): push the word if below `STACK_LIMIT`,
otherwise set the stack-overflow instruction result and leave the stack
unchanged (the macro returns from the enclosing method). -/
def pushStack (s : Interpreter) (v : Nat) : Interpreter :=
  if s.stack.length < STACK_LIMIT then { s with stack := v :: s.stack }
  else { s with instruction_result := .StackOverflow }

/-- Modelled from the spec: the `push!`/`push_b256!` macro behaviour when
further statements follow the push in the same branch (as in
`insert_create_outcome` / `insert_eofcreate_outcome`, where the gas update
comes after the push): on success the continuation `k` (the rest of the
branch) runs on the pushed state; on overflow the macro returns from the
enclosing method early, so `k` is skipped, the stack-overflow instruction
result is set, and the stack and gas are left unchanged. -/
def pushThen (s : Interpreter) (v : Nat) (k : Interpreter → Interpreter) :
    Interpreter :=
  if s.stack.length < STACK_LIMIT then k { s with stack := v :: s.stack }
  else { s with instruction_result := .StackOverflow }

/-- From the source: `Interpreter::new`.  Panics (`none`) when the bytecode
is empty (not execution-ready); a leading sentinel byte `0xFF` constructs the
RISC emulator from the remaining bytes and the contract input. -/
def Interpreter.new (contract : Contract) (gas_limit : Nat) (is_static_flag : Bool) :
    Option Interpreter :=
  match contract.bytecode with
  | [] => none
  | b0 :: rest =>
    some {
      instruction_pc := 0
      gas := Gas.new gas_limit
      contract := contract
      instruction_result := .Continue
      bytecode := contract.bytecode
      is_eof := contract.bytecodeIsEof
      is_eof_init := false
      shared_memory := []
      stack := []
      function_stack := []
      return_data_buffer := []
      is_static := is_static_flag
      next_action := .None
      riscv_emulator :=
        if b0 = 0xFF then some ⟨setup_from_elf rest contract.input, none⟩
        else none }

/-- From the source: `Interpreter::insert_create_outcome`.  Resets the
instruction result to `Continue`, stores the output in the return-data buffer
iff the outcome is a revert, then branches on the outcome's result class;
in the success and revert arms the push comes first and the gas update after
it (so a failing push skips the gas update).  `none` models the
`FatalExternalError` panic. -/
def Interpreter.insert_create_outcome (s : Interpreter) (o : CreateOutcome) :
    Option Interpreter :=
  let s := { s with
    instruction_result := .Continue
    return_data_buffer := if o.instruction_result.is_revert then o.output else [] }
  if o.instruction_result.is_ok then
    some (pushThen s (o.address.getD 0) (fun s2 =>
      { s2 with
          gas := (s2.gas.erase_cost o.gas.remaining).record_refund o.gas.refunded }))
  else if o.instruction_result.is_revert then
    some (pushThen s 0 (fun s2 =>
      { s2 with gas := s2.gas.erase_cost o.gas.remaining }))
  else if o.instruction_result = .FatalExternalError then none
  else some (pushStack s 0)

/-- From the source: `Interpreter::insert_eofcreate_outcome`.  Note: unlike
the call and create variants, it does not reset `instruction_result`; the
buffer is set only when the result is strictly `Revert`; the success arm is
strictly `ReturnContract`; as in the create variant, the push precedes the
gas update (a failing push skips it). -/
def Interpreter.insert_eofcreate_outcome (s : Interpreter) (o : EOFCreateOutcome) :
    Option Interpreter :=
  let s := { s with
    return_data_buffer := if o.instruction_result = .Revert then o.output else [] }
  if o.instruction_result = .ReturnContract then
    some (pushThen s o.address (fun s2 =>
      { s2 with
          gas := (s2.gas.erase_cost o.gas.remaining).record_refund o.gas.refunded }))
  else if o.instruction_result.is_revert then
    some (pushThen s 0 (fun s2 =>
      { s2 with gas := s2.gas.erase_cost o.gas.remaining }))
  else if o.instruction_result = .FatalExternalError then none
  else some (pushStack s 0)

/-- From the source: `Interpreter::insert_call_outcome`.  The shared memory
travels separately from the driver (it is the caller's buffer); `none` models
the `FatalExternalError` panic and an out-of-bounds memory write. -/
def Interpreter.insert_call_outcome (s : Interpreter) (memory : List Nat)
    (o : CallOutcome) : Option (Interpreter × List Nat) :=
  let s := { s with
    instruction_result := .Continue
    return_data_buffer := o.output }
  let out_offset := o.memory_start
  let out_len := o.memory_length
  let target_len := min out_len s.return_data_buffer.length
  if o.instruction_result.is_ok then
    match memSet memory out_offset (s.return_data_buffer.take target_len) with
    | none => none
    | some memory' =>
      some (pushStack
        { s with gas := (s.gas.erase_cost o.gas.remaining).record_refund o.gas.refunded }
        1, memory')
  else if o.instruction_result.is_revert then
    match memSet memory out_offset (s.return_data_buffer.take target_len) with
    | none => none
    | some memory' =>
      some (pushStack { s with gas := s.gas.erase_cost o.gas.remaining } 0, memory')
  else if o.instruction_result = .FatalExternalError then none
  else some (pushStack s 0, memory)

theorem pushStack_of_lt (s : Interpreter) (v : Nat) (h : s.stack.length < STACK_LIMIT) :
    pushStack s v = { s with stack := v :: s.stack } := by
  simp [pushStack, h]

theorem pushStack_of_full (s : Interpreter) (v : Nat) (h : ¬ s.stack.length < STACK_LIMIT) :
    pushStack s v = { s with instruction_result := .StackOverflow } := by
  simp [pushStack, h]

theorem pushThen_of_lt (s : Interpreter) (v : Nat) (k : Interpreter → Interpreter)
    (h : s.stack.length < STACK_LIMIT) :
    pushThen s v k = k { s with stack := v :: s.stack } := by
  simp [pushThen, h]

theorem pushThen_of_full (s : Interpreter) (v : Nat) (k : Interpreter → Interpreter)
    (h : ¬ s.stack.length < STACK_LIMIT) :
    pushThen s v k = { s with instruction_result := .StackOverflow } := by
  simp [pushThen, h]

theorem pushStack_gas (s : Interpreter) (v : Nat) : (pushStack s v).gas = s.gas := by
  unfold pushStack
  split <;> rfl

theorem pushStack_buffer (s : Interpreter) (v : Nat) :
    (pushStack s v).return_data_buffer = s.return_data_buffer := by
  unfold pushStack
  split <;> rfl

theorem is_ok_false_of_is_revert {r : InstructionResult} (h : r.is_revert = true) :
    r.is_ok = false := by
  cases r <;> simp_all [InstructionResult.is_ok, InstructionResult.is_revert]

theorem ne_fatal_of_is_revert {r : InstructionResult} (h : r.is_revert = true) :
    r ≠ .FatalExternalError := by
  cases r <;> simp_all [InstructionResult.is_revert]

theorem drop_take_append (A B C : List Nat) :
    ((A ++ B ++ C).drop A.length).take B.length = B := by
  rw [List.append_assoc, List.drop_left, List.take_left]

theorem memSet_segment (memory : List Nat) (offset : Nat) (data : List Nat)
    (h : offset + data.length ≤ memory.length) :
    ∃ memory', memSet memory offset data = some memory' ∧
      (memory'.drop offset).take data.length = data ∧
      memory'.length = memory.length := by
  by_cases hd : data = []
  · subst hd
    exact ⟨memory, by simp [memSet], by simp, rfl⟩
  · refine ⟨memory.take offset ++ data ++ memory.drop (offset + data.length),
      by simp [memSet, hd, h], ?_, ?_⟩
    · have key := drop_take_append (memory.take offset) data
        (memory.drop (offset + data.length))
      have hlen : (memory.take offset).length = offset := by
        simp [List.length_take]
        omega
      rw [hlen] at key
      exact key
    · simp only [List.length_append, List.length_take, List.length_drop]
      omega

/-- Restatement of `Interpreter.insert_call_outcome` with its let-bindings
resolved, used to drive case analysis. -/
theorem insert_call_outcome_def (s : Interpreter) (mem : List Nat) (o : CallOutcome) :
    s.insert_call_outcome mem o =
      (if o.instruction_result.is_ok then
        match memSet mem o.memory_start
            (o.output.take (min o.memory_length o.output.length)) with
        | none => none
        | some memory' =>
          some (pushStack
            { s with
              instruction_result := .Continue
              return_data_buffer := o.output
              gas := (s.gas.erase_cost o.gas.remaining).record_refund o.gas.refunded }
            1, memory')
      else if o.instruction_result.is_revert then
        match memSet mem o.memory_start
            (o.output.take (min o.memory_length o.output.length)) with
        | none => none
        | some memory' =>
          some (pushStack
            { s with
              instruction_result := .Continue
              return_data_buffer := o.output
              gas := s.gas.erase_cost o.gas.remaining } 0, memory')
      else if o.instruction_result = .FatalExternalError then none
      else some (pushStack
        { s with
          instruction_result := .Continue
          return_data_buffer := o.output } 0, mem)) := rfl

/-- Restatement of `Interpreter.insert_create_outcome` with its let-bindings
resolved, used to drive case analysis. -/
theorem insert_create_outcome_def (s : Interpreter) (o : CreateOutcome) :
    s.insert_create_outcome o =
      (if o.instruction_result.is_ok then
        some (pushThen
          { s with
            instruction_result := .Continue
            return_data_buffer :=
              (if o.instruction_result.is_revert then o.output else []) }
          (o.address.getD 0)
          (fun s2 => { s2 with
            gas := (s2.gas.erase_cost o.gas.remaining).record_refund
              o.gas.refunded }))
      else if o.instruction_result.is_revert then
        some (pushThen
          { s with
            instruction_result := .Continue
            return_data_buffer :=
              (if o.instruction_result.is_revert then o.output else []) } 0
          (fun s2 => { s2 with gas := s2.gas.erase_cost o.gas.remaining }))
      else if o.instruction_result = .FatalExternalError then none
      else some (pushStack
        { s with
          instruction_result := .Continue
          return_data_buffer :=
            (if o.instruction_result.is_revert then o.output else []) } 0)) := rfl

/-- Restatement of `Interpreter.insert_eofcreate_outcome` with its
let-bindings resolved, used to drive case analysis. -/
theorem insert_eofcreate_outcome_def (s : Interpreter) (o : EOFCreateOutcome) :
    s.insert_eofcreate_outcome o =
      (if o.instruction_result = .ReturnContract then
        some (pushThen
          { s with
            return_data_buffer :=
              (if o.instruction_result = .Revert then o.output else []) }
          o.address
          (fun s2 => { s2 with
            gas := (s2.gas.erase_cost o.gas.remaining).record_refund
              o.gas.refunded }))
      else if o.instruction_result.is_revert then
        some (pushThen
          { s with
            return_data_buffer :=
              (if o.instruction_result = .Revert then o.output else []) } 0
          (fun s2 => { s2 with gas := s2.gas.erase_cost o.gas.remaining }))
      else if o.instruction_result = .FatalExternalError then none
      else some (pushStack
        { s with
          return_data_buffer :=
            (if o.instruction_result = .Revert then o.output else []) } 0)) := rfl

/-- Base concrete contract used by concrete evaluations. -/
def baseContract : Contract := ⟨[], [0x00], 0xAAAA, 0xBBBB, 0, false⟩

/-- Base concrete interpreter state used by concrete evaluations. -/
def baseInterp : Interpreter :=
  ⟨0, ⟨1000, 0⟩, baseContract, .Continue, [0x00], false, false, [], [], [], [], false,
    .None, none⟩


/-- C1 (counterexample): the claim says all three reconciliation entry points
leave `instruction_result = Continue` for non-fatal outcomes, but
`insert_eofcreate_outcome` never resets the instruction result: starting from
a state whose `instruction_result` is `Revert`, inserting a successful
(`ReturnContract`) EOF-create outcome leaves `instruction_result = Revert`,
not `Continue`. -/
theorem insert_eofcreate_outcome_no_reset_counterexample :
    ((({ baseInterp with instruction_result := .Revert }).insert_eofcreate_outcome
        ⟨⟨.ReturnContract, [1, 2], ⟨5, 0⟩⟩, 0xCC⟩).map Interpreter.instruction_result)
      = some .Revert := by
  decide

/-- C1 (amended): for any outcome whose instruction result is not
`FatalExternalError` and a stack below its limit, `insert_call_outcome` and
`insert_create_outcome` leave `instruction_result = Continue`, and the
return-data buffer holds the outcome's output iff the outcome was a revert
(for the call case, always); `insert_eofcreate_outcome` leaves
`instruction_result` unchanged (it performs no reset) and sets the buffer to
the output iff the result is strictly `Revert`. -/
theorem insert_outcome_continue_spec (s : Interpreter) (mem : List Nat)
    (oc : CallOutcome) (ocr : CreateOutcome) (oe : EOFCreateOutcome)
    (hstack : s.stack.length < STACK_LIMIT)
    (h1 : oc.instruction_result ≠ .FatalExternalError)
    (h2 : ocr.instruction_result ≠ .FatalExternalError)
    (h3 : oe.instruction_result ≠ .FatalExternalError) :
    (∀ s' mem', s.insert_call_outcome mem oc = some (s', mem') →
      s'.instruction_result = .Continue ∧ s'.return_data_buffer = oc.output) ∧
    (∀ s', s.insert_create_outcome ocr = some s' →
      s'.instruction_result = .Continue ∧
      s'.return_data_buffer =
        (if ocr.instruction_result.is_revert then ocr.output else [])) ∧
    (∀ s', s.insert_eofcreate_outcome oe = some s' →
      s'.instruction_result = s.instruction_result ∧
      s'.return_data_buffer =
        (if oe.instruction_result = .Revert then oe.output else [])) := by
  refine ⟨?_, ?_, ?_⟩
  · intro s' mem' hs
    rw [insert_call_outcome_def] at hs
    by_cases hok : oc.instruction_result.is_ok
    · rw [if_pos hok] at hs
      cases hm : memSet mem oc.memory_start
          (oc.output.take (min oc.memory_length oc.output.length)) with
      | none => rw [hm] at hs; cases hs
      | some memory' =>
        rw [hm] at hs
        rw [pushStack_of_lt _ _ (by simpa using hstack)] at hs
        simp only [Option.some.injEq, Prod.mk.injEq] at hs
        rw [← hs.1]
        exact ⟨rfl, rfl⟩
    · rw [if_neg hok] at hs
      by_cases hrev : oc.instruction_result.is_revert
      · rw [if_pos hrev] at hs
        cases hm : memSet mem oc.memory_start
            (oc.output.take (min oc.memory_length oc.output.length)) with
        | none => rw [hm] at hs; cases hs
        | some memory' =>
          rw [hm] at hs
          rw [pushStack_of_lt _ _ (by simpa using hstack)] at hs
          simp only [Option.some.injEq, Prod.mk.injEq] at hs
          rw [← hs.1]
          exact ⟨rfl, rfl⟩
      · rw [if_neg hrev, if_neg h1] at hs
        rw [pushStack_of_lt _ _ (by simpa using hstack)] at hs
        simp only [Option.some.injEq, Prod.mk.injEq] at hs
        rw [← hs.1]
        exact ⟨rfl, rfl⟩
  · intro s' hs
    rw [insert_create_outcome_def] at hs
    by_cases hok : ocr.instruction_result.is_ok
    · rw [if_pos hok] at hs
      rw [pushThen_of_lt _ _ _ (by simpa using hstack)] at hs
      simp only [Option.some.injEq] at hs
      rw [← hs]
      exact ⟨rfl, rfl⟩
    · rw [if_neg hok] at hs
      by_cases hrev : ocr.instruction_result.is_revert
      · rw [if_pos hrev] at hs
        rw [pushThen_of_lt _ _ _ (by simpa using hstack)] at hs
        simp only [Option.some.injEq] at hs
        rw [← hs]
        exact ⟨rfl, rfl⟩
      · rw [if_neg hrev, if_neg h2] at hs
        rw [pushStack_of_lt _ _ (by simpa using hstack)] at hs
        simp only [Option.some.injEq] at hs
        rw [← hs]
        exact ⟨rfl, rfl⟩
  · intro s' hs
    rw [insert_eofcreate_outcome_def] at hs
    by_cases hrc : oe.instruction_result = .ReturnContract
    · rw [if_pos hrc] at hs
      rw [pushThen_of_lt _ _ _ (by simpa using hstack)] at hs
      simp only [Option.some.injEq] at hs
      rw [← hs]
      exact ⟨rfl, rfl⟩
    · rw [if_neg hrc] at hs
      by_cases hrev : oe.instruction_result.is_revert
      · rw [if_pos hrev] at hs
        rw [pushThen_of_lt _ _ _ (by simpa using hstack)] at hs
        simp only [Option.some.injEq] at hs
        rw [← hs]
        exact ⟨rfl, rfl⟩
      · rw [if_neg hrev, if_neg h3] at hs
        rw [pushStack_of_lt _ _ (by simpa using hstack)] at hs
        simp only [Option.some.injEq] at hs
        rw [← hs]
        exact ⟨rfl, rfl⟩

/-- Witness for the amended C1 at concrete inputs. -/
theorem insert_outcome_continue_spec_witness :
    ((baseInterp.insert_call_outcome [0, 0] ⟨⟨.Return, [7], ⟨3, 1⟩⟩, 0, 1⟩).map
        (fun p => (p.1.instruction_result, p.1.return_data_buffer)))
      = some (.Continue, [7]) ∧
    ((baseInterp.insert_create_outcome ⟨⟨.Revert, [9], ⟨3, 1⟩⟩, none⟩).map
        (fun s => (s.instruction_result, s.return_data_buffer)))
      = some (.Continue, [9]) ∧
    ((baseInterp.insert_eofcreate_outcome ⟨⟨.Stop, [4], ⟨3, 1⟩⟩, 0xCC⟩).map
        (fun s => (s.instruction_result, s.return_data_buffer)))
      = some (.Continue, []) := by
  have h := insert_outcome_continue_spec baseInterp [0, 0]
    ⟨⟨.Return, [7], ⟨3, 1⟩⟩, 0, 1⟩ ⟨⟨.Revert, [9], ⟨3, 1⟩⟩, none⟩
    ⟨⟨.Stop, [4], ⟨3, 1⟩⟩, 0xCC⟩ (by decide) (by decide) (by decide) (by decide)
  obtain ⟨s₁, m₁, e₁⟩ : ∃ s₁ m₁,
      baseInterp.insert_call_outcome [0, 0] ⟨⟨.Return, [7], ⟨3, 1⟩⟩, 0, 1⟩
        = some (s₁, m₁) := ⟨_, _, rfl⟩
  obtain ⟨s₂, e₂⟩ : ∃ s₂,
      baseInterp.insert_create_outcome ⟨⟨.Revert, [9], ⟨3, 1⟩⟩, none⟩ = some s₂ :=
    ⟨_, rfl⟩
  obtain ⟨s₃, e₃⟩ : ∃ s₃,
      baseInterp.insert_eofcreate_outcome ⟨⟨.Stop, [4], ⟨3, 1⟩⟩, 0xCC⟩ = some s₃ :=
    ⟨_, rfl⟩
  obtain ⟨ha1, ha2⟩ := h.1 s₁ m₁ e₁
  obtain ⟨hb1, hb2⟩ := h.2.1 s₂ e₂
  obtain ⟨hc1, hc2⟩ := h.2.2 s₃ e₃
  refine ⟨?_, ?_, ?_⟩
  · rw [e₁]
    simp only [Option.map_some']
    rw [ha1, ha2]
    rfl
  · rw [e₂]
    simp only [Option.map_some']
    rw [hb1, hb2]
    rfl
  · rw [e₃]
    simp only [Option.map_some']
    rw [hc1, hc2]
    rfl

/-- C3: for every call outcome in the success class, with a non-full stack,
a large enough caller memory buffer and no u64 overflow of the gas credit,
`insert_call_outcome` pushes `1`, increases gas-remaining by the outcome's
remaining gas, adds the outcome's refund to the refund counter, and copies
the first `min(memory_length, output.len)` output bytes into memory at
`memory_start`. -/
theorem insert_call_outcome_success_spec (s : Interpreter) (mem : List Nat)
    (o : CallOutcome)
    (hok : o.instruction_result.is_ok = true)
    (hstack : s.stack.length < STACK_LIMIT)
    (hbound : o.memory_start + min o.memory_length o.output.length ≤ mem.length)
    (hgas : s.gas.remaining + o.gas.remaining < 2 ^ 64) :
    ∃ s' mem', s.insert_call_outcome mem o = some (s', mem') ∧
      s'.stack.head? = some 1 ∧
      s'.gas.remaining = s.gas.remaining + o.gas.remaining ∧
      s'.gas.refunded = s.gas.refunded + o.gas.refunded ∧
      (mem'.drop o.memory_start).take (min o.memory_length o.output.length) =
        o.output.take (min o.memory_length o.output.length) ∧
      mem'.length = mem.length := by
  have hdata : (o.output.take (min o.memory_length o.output.length)).length =
      min o.memory_length o.output.length := by
    rw [List.length_take]
    omega
  obtain ⟨mem', hset, hseg, hlen⟩ := memSet_segment mem o.memory_start
    (o.output.take (min o.memory_length o.output.length)) (by rw [hdata]; exact hbound)
  refine ⟨pushStack
    { s with
      instruction_result := .Continue
      return_data_buffer := o.output
      gas := (s.gas.erase_cost o.gas.remaining).record_refund o.gas.refunded }
    1, mem', ?_, ?_, ?_, ?_, ?_, hlen⟩
  · rw [insert_call_outcome_def, if_pos hok, hset]
  · rw [pushStack_of_lt _ _ (by simpa using hstack)]
    rfl
  · rw [pushStack_gas]
    show (s.gas.remaining + o.gas.remaining) % 2 ^ 64 = s.gas.remaining + o.gas.remaining
    exact Nat.mod_eq_of_lt hgas
  · rw [pushStack_gas]
    rfl
  · rw [hdata] at hseg
    exact hseg

/-- Witness for C3 at a concrete input. -/
theorem insert_call_outcome_success_spec_witness :
    ∃ s' mem',
      baseInterp.insert_call_outcome [9, 9, 9, 9] ⟨⟨.Stop, [5, 6, 7], ⟨10, 3⟩⟩, 1, 2⟩
        = some (s', mem') ∧
      s'.stack.head? = some 1 ∧
      s'.gas.remaining = 1010 ∧
      s'.gas.refunded = 3 ∧
      (mem'.drop 1).take 2 = [5, 6] := by
  obtain ⟨s', mem', h, h1, h2, h3, h4, _⟩ :=
    insert_call_outcome_success_spec baseInterp [9, 9, 9, 9]
      ⟨⟨.Stop, [5, 6, 7], ⟨10, 3⟩⟩, 1, 2⟩ (by decide) (by decide) (by decide) (by decide)
  exact ⟨s', mem', h, h1, h2, h3, h4⟩

/-- C7: for every create outcome in the revert class, with a non-full stack
and no u64 overflow, `insert_create_outcome` stores the output in the
return-data buffer, pushes `0`, and credits the outcome's remaining gas back
with no refund recorded; for any non-revert, non-fatal outcome the
return-data buffer is cleared to empty. -/
theorem insert_create_outcome_revert_spec (s : Interpreter) (o o2 : CreateOutcome)
    (hstack : s.stack.length < STACK_LIMIT)
    (hrev : o.instruction_result.is_revert = true)
    (hgas : s.gas.remaining + o.gas.remaining < 2 ^ 64)
    (h2a : o2.instruction_result.is_revert = false)
    (h2b : o2.instruction_result ≠ .FatalExternalError) :
    (∃ s', s.insert_create_outcome o = some s' ∧
      s'.return_data_buffer = o.output ∧
      s'.stack.head? = some 0 ∧
      s'.gas.remaining = s.gas.remaining + o.gas.remaining ∧
      s'.gas.refunded = s.gas.refunded) ∧
    (∃ s'', s.insert_create_outcome o2 = some s'' ∧
      s''.return_data_buffer = []) := by
  have hokf : ¬ (o.instruction_result.is_ok = true) := by
    simp [is_ok_false_of_is_revert hrev]
  constructor
  · refine ⟨pushThen
      { s with
        instruction_result := .Continue
        return_data_buffer :=
          (if o.instruction_result.is_revert then o.output else []) } 0
      (fun s2 => { s2 with gas := s2.gas.erase_cost o.gas.remaining }),
      ?_, ?_, ?_, ?_, ?_⟩
    · rw [insert_create_outcome_def, if_neg hokf, if_pos hrev]
    · rw [pushThen_of_lt _ _ _ (by simpa using hstack)]
      show (if o.instruction_result.is_revert = true then o.output else []) = o.output
      rw [if_pos hrev]
    · rw [pushThen_of_lt _ _ _ (by simpa using hstack)]
      rfl
    · rw [pushThen_of_lt _ _ _ (by simpa using hstack)]
      show (s.gas.remaining + o.gas.remaining) % 2 ^ 64 =
        s.gas.remaining + o.gas.remaining
      exact Nat.mod_eq_of_lt hgas
    · rw [pushThen_of_lt _ _ _ (by simpa using hstack)]
      rfl
  · by_cases hok : o2.instruction_result.is_ok
    · refine ⟨pushThen
        { s with
          instruction_result := .Continue
          return_data_buffer :=
            (if o2.instruction_result.is_revert then o2.output else []) }
        (o2.address.getD 0)
        (fun s2 => { s2 with
          gas := (s2.gas.erase_cost o2.gas.remaining).record_refund
            o2.gas.refunded }), ?_, ?_⟩
      · rw [insert_create_outcome_def, if_pos hok]
      · rw [pushThen_of_lt _ _ _ (by simpa using hstack)]
        show (if o2.instruction_result.is_revert = true then o2.output else []) = []
        rw [if_neg (by simp [h2a])]
    · refine ⟨pushStack
        { s with
          instruction_result := .Continue
          return_data_buffer :=
            (if o2.instruction_result.is_revert then o2.output else []) } 0, ?_, ?_⟩
      · rw [insert_create_outcome_def, if_neg hok, if_neg (by simp [h2a]), if_neg h2b]
      · rw [pushStack_buffer]
        show (if o2.instruction_result.is_revert = true then o2.output else []) = []
        rw [if_neg (by simp [h2a])]

/-- Witness for C7 at a concrete input. -/
theorem insert_create_outcome_revert_spec_witness :
    (∃ s', baseInterp.insert_create_outcome ⟨⟨.Revert, [0xDE, 0xAD], ⟨7, 2⟩⟩, none⟩
        = some s' ∧
      s'.return_data_buffer = [0xDE, 0xAD] ∧
      s'.stack.head? = some 0 ∧
      s'.gas.remaining = 1007 ∧
      s'.gas.refunded = 0) ∧
    (∃ s'', baseInterp.insert_create_outcome ⟨⟨.Stop, [1], ⟨7, 2⟩⟩, some 0xCC⟩
        = some s'' ∧ s''.return_data_buffer = []) := by
  obtain ⟨⟨s', h, a1, a2, a3, a4⟩, ⟨s'', h2, b1⟩⟩ :=
    insert_create_outcome_revert_spec baseInterp
      ⟨⟨.Revert, [0xDE, 0xAD], ⟨7, 2⟩⟩, none⟩ ⟨⟨.Stop, [1], ⟨7, 2⟩⟩, some 0xCC⟩
      (by decide) (by decide) (by decide) (by decide) (by decide)
  exact ⟨⟨s', h, a1, a2, a3, a4⟩, ⟨s'', h2, b1⟩⟩

/-- C10: when the operand stack already holds `STACK_LIMIT` entries, the push
performed by `insert_call_outcome` and `insert_create_outcome` on any
non-fatal outcome fails, setting `instruction_result` to the stack-overflow
error instead of `Continue` and leaving the stack unchanged; in the call
success branch the gas credit, refund and memory copy have already taken
effect before the failure and are not rolled back (in the create arms the
early-returning push skips the gas update, leaving gas unchanged). -/
theorem insert_outcome_stack_overflow_spec (s : Interpreter) (mem : List Nat)
    (o : CallOutcome) (ocr : CreateOutcome)
    (hstack : s.stack.length = STACK_LIMIT)
    (hfat : o.instruction_result ≠ .FatalExternalError)
    (hbound : o.memory_start + min o.memory_length o.output.length ≤ mem.length)
    (hcr : ocr.instruction_result ≠ .FatalExternalError) :
    (∃ s' mem', s.insert_call_outcome mem o = some (s', mem') ∧
      s'.instruction_result = .StackOverflow ∧
      s'.stack = s.stack ∧
      (o.instruction_result.is_ok = true →
        s'.gas.remaining = (s.gas.remaining + o.gas.remaining) % 2 ^ 64 ∧
        s'.gas.refunded = s.gas.refunded + o.gas.refunded ∧
        (mem'.drop o.memory_start).take (min o.memory_length o.output.length) =
          o.output.take (min o.memory_length o.output.length))) ∧
    (∃ s'', s.insert_create_outcome ocr = some s'' ∧
      s''.instruction_result = .StackOverflow ∧
      s''.stack = s.stack ∧
      s''.gas = s.gas) := by
  have hfull : ¬ s.stack.length < STACK_LIMIT := by omega
  have hdata : (o.output.take (min o.memory_length o.output.length)).length =
      min o.memory_length o.output.length := by
    rw [List.length_take]
    omega
  obtain ⟨mem', hset, hseg, hlen⟩ := memSet_segment mem o.memory_start
    (o.output.take (min o.memory_length o.output.length)) (by rw [hdata]; exact hbound)
  constructor
  · by_cases hok : o.instruction_result.is_ok
    · refine ⟨pushStack
        { s with
          instruction_result := .Continue
          return_data_buffer := o.output
          gas := (s.gas.erase_cost o.gas.remaining).record_refund o.gas.refunded }
        1, mem', ?_, ?_, ?_, ?_⟩
      · rw [insert_call_outcome_def, if_pos hok, hset]
      · rw [pushStack_of_full _ _ (by simpa using hfull)]
      · rw [pushStack_of_full _ _ (by simpa using hfull)]
      · intro _
        refine ⟨?_, ?_, ?_⟩
        · rw [pushStack_gas]
          rfl
        · rw [pushStack_gas]
          rfl
        · rw [hdata] at hseg
          exact hseg
    · by_cases hrev : o.instruction_result.is_revert
      · refine ⟨pushStack
          { s with
            instruction_result := .Continue
            return_data_buffer := o.output
            gas := s.gas.erase_cost o.gas.remaining } 0, mem', ?_, ?_, ?_, ?_⟩
        · rw [insert_call_outcome_def, if_neg hok, if_pos hrev, hset]
        · rw [pushStack_of_full _ _ (by simpa using hfull)]
        · rw [pushStack_of_full _ _ (by simpa using hfull)]
        · intro hcontra
          exact absurd hcontra hok
      · refine ⟨pushStack
          { s with
            instruction_result := .Continue
            return_data_buffer := o.output } 0, mem, ?_, ?_, ?_, ?_⟩
        · rw [insert_call_outcome_def, if_neg hok, if_neg hrev, if_neg hfat]
        · rw [pushStack_of_full _ _ (by simpa using hfull)]
        · rw [pushStack_of_full _ _ (by simpa using hfull)]
        · intro hcontra
          exact absurd hcontra hok
  · by_cases hokc : ocr.instruction_result.is_ok
    · refine ⟨pushThen
        { s with
          instruction_result := .Continue
          return_data_buffer :=
            (if ocr.instruction_result.is_revert then ocr.output else []) }
        (ocr.address.getD 0)
        (fun s2 => { s2 with
          gas := (s2.gas.erase_cost ocr.gas.remaining).record_refund
            ocr.gas.refunded }), ?_, ?_, ?_, ?_⟩
      · rw [insert_create_outcome_def, if_pos hokc]
      · rw [pushThen_of_full _ _ _ (by simpa using hfull)]
      · rw [pushThen_of_full _ _ _ (by simpa using hfull)]
      · rw [pushThen_of_full _ _ _ (by simpa using hfull)]
    · by_cases hrevc : ocr.instruction_result.is_revert
      · refine ⟨pushThen
          { s with
            instruction_result := .Continue
            return_data_buffer :=
              (if ocr.instruction_result.is_revert then ocr.output else []) } 0
          (fun s2 => { s2 with gas := s2.gas.erase_cost ocr.gas.remaining }),
          ?_, ?_, ?_, ?_⟩
        · rw [insert_create_outcome_def, if_neg hokc, if_pos hrevc]
        · rw [pushThen_of_full _ _ _ (by simpa using hfull)]
        · rw [pushThen_of_full _ _ _ (by simpa using hfull)]
        · rw [pushThen_of_full _ _ _ (by simpa using hfull)]
      · refine ⟨pushStack
          { s with
            instruction_result := .Continue
            return_data_buffer :=
              (if ocr.instruction_result.is_revert then ocr.output else []) } 0,
          ?_, ?_, ?_, ?_⟩
        · rw [insert_create_outcome_def, if_neg hokc, if_neg hrevc, if_neg hcr]
        · rw [pushStack_of_full _ _ (by simpa using hfull)]
        · rw [pushStack_of_full _ _ (by simpa using hfull)]
        · rw [pushStack_of_full _ _ (by simpa using hfull)]

/-- Witness for C10 at a concrete input: a stack filled to 1024 entries,
exercising a success-class call outcome (gas credited and memory copied
before the failing push) and a revert-class create outcome (gas left
untouched by the early-returning push). -/
theorem insert_outcome_stack_overflow_spec_witness :
    (∃ s' mem',
      ({ baseInterp with stack := List.replicate 1024 0 }).insert_call_outcome
        [9, 9] ⟨⟨.Return, [5], ⟨10, 3⟩⟩, 0, 1⟩ = some (s', mem') ∧
      s'.instruction_result = .StackOverflow ∧
      s'.stack = List.replicate 1024 0 ∧
      s'.gas.remaining = 1010) ∧
    (∃ s'',
      ({ baseInterp with stack := List.replicate 1024 0 }).insert_create_outcome
        ⟨⟨.Revert, [5], ⟨10, 3⟩⟩, none⟩ = some s'' ∧
      s''.instruction_result = .StackOverflow ∧
      s''.gas = baseInterp.gas) := by
  obtain ⟨⟨s', mem', h, a1, a2, aimp⟩, ⟨s'', h2, b1, _, b3⟩⟩ :=
    insert_outcome_stack_overflow_spec { baseInterp with stack := List.replicate 1024 0 }
      [9, 9] ⟨⟨.Return, [5], ⟨10, 3⟩⟩, 0, 1⟩ ⟨⟨.Revert, [5], ⟨10, 3⟩⟩, none⟩
      (by
        rw [show ({ baseInterp with stack := List.replicate 1024 0 } :
          Interpreter).stack = List.replicate 1024 0 from rfl, List.length_replicate]
        rfl)
      (by decide) (by decide) (by decide)
  obtain ⟨g1, _, _⟩ := aimp (by decide)
  exact ⟨⟨s', mem', h, a1, a2, g1⟩, ⟨s'', h2, b1, b3⟩⟩

/-- Modelled from the spec: the host capability consumed by the adapter:
`sload(address, key)` (the cold flag is ignored by the adapter, so only the
value is modelled) and `env().tx.gas_limit`.  `sstore`'s effect lives in the
host, outside the driver, and is not modelled. -/
structure Host where
  sloadFn : Nat → Nat → Option Nat
  txGasLimit : Nat

/-- Modelled from the spec: `Address::from_slice` on 20 DRAM bytes, read as a
big-endian 160-bit number. -/
def addrFromBytes (bytes : List Nat) : Nat :=
  bytes.foldl (fun acc b => acc * 256 + b) 0

/-- The state threaded through the RISC trap loop: the emulator's register
file and DRAM, the pending `returned_data_destiny`, the driver's pending
action and instruction result, and the deferred memory resize. -/
structure RiscLoop where
  xregs : List Nat
  dram : List Nat
  destiny : Option (Nat × Nat)
  next_action : InterpreterAction
  instruction_result : InstructionResult
  resizeMem : Option Nat
deriving DecidableEq, Repr

/-- From the source (`Interpreter::run`, RISC trap loop): repeatedly invoke
the emulator's `start()` (modelled by consuming the black-box trap script;
an exhausted script behaves as a non-ecall trap).  Only an environment call
from machine mode is recognized; the syscall selector is register `x5`
(`t0`), arguments are `a0..a5` (`x10..x15`).  Faithful to the source, the
`Call` arm (t0 = 3) does NOT break out of the loop.  `none` models a panic
on a failed DRAM slice unwrap. -/
def trapLoop (host : Host) (gas : Gas) (memLen : Nat) (target : Nat) :
    List StartRes → RiscLoop → Option (RiscLoop × List StartRes)
  | [], L => some ({ L with instruction_result := .Revert }, [])
  | .nonEcall :: rest, L => some ({ L with instruction_result := .Revert }, rest)
  | .ecall xs :: rest, L =>
    let L1 := { L with xregs := xs }
    let t0 := xread xs 5
    if t0 = 0 then
      let ret_offset := xread xs 10
      let ret_size := xread xs 11
      match (if ret_size ≠ 0 then
          getDramSlice L1.dram ret_offset (ret_offset + ret_size)
        else some []) with
      | none => none
      | some data =>
        some ({ L1 with next_action := .Return ⟨.Return, data, gas⟩ }, rest)
    else if t0 = 1 then
      let key := xread xs 10
      match host.sloadFn target key with
      | some value =>
        trapLoop host gas memLen target rest
          { L1 with xregs := xwrite xs 10 (value % 2 ^ 64) }
      | none => some ({ L1 with instruction_result := .Revert }, rest)
    else if t0 = 2 then
      trapLoop host gas memLen target rest L1
    else if t0 = 3 then
      let a0 := xread xs 10
      match getDramSlice L1.dram a0 (a0 + 20) with
      | none => none
      | some addrBytes =>
        let value := xread xs 11
        let args_offset := xread xs 12
        let args_size := xread xs 13
        let ret_offset := xread xs 14
        let ret_size := xread xs 15
        match getDramSlice L1.dram args_offset (args_offset + args_size) with
        | none => none
        | some inputData =>
          trapLoop host gas memLen target rest
            { L1 with
              destiny := some (ret_offset, ret_offset + ret_size)
              resizeMem := if memLen < ret_size then some ret_size else L1.resizeMem
              next_action := .Call {
                input := inputData
                gas_limit := host.txGasLimit
                target_address := addrFromBytes addrBytes
                bytecode_address := addrFromBytes addrBytes
                caller := target
                value := .Transfer value
                scheme := .Call
                is_static := false
                is_eof := false
                return_memory_offset := (0, ret_size) } }
    else if t0 = 4 then
      some ({ L1 with next_action := .Return ⟨.Revert, [0, 0, 0, 0], gas⟩ }, rest)
    else
      some ({ L1 with instruction_result := .Revert }, rest)

/-- From the source (`Interpreter::run`, resumption hand-off): when a
previous suspension left a `returned_data_destiny` range, copy that many
bytes from the prefix of shared memory into the emulator's DRAM at that
range, clearing the range.  `none` models the panics of the DRAM slice
unwrap and of an out-of-bounds shared-memory slice. -/
def handOff (memory : List Nat) (rv : RVEmu) : Option RVEmu :=
  match rv.returned_data_destiny with
  | none => some rv
  | some (a, b) =>
    (getDramSlice rv.emu.dram a b).bind (fun data =>
      (memSlice memory 0 data.length).map (fun copied =>
        ⟨⟨rv.emu.xregs, writeDram rv.emu.dram a copied, rv.emu.script⟩, none⟩))

/-- From the source (`Interpreter::run`, main loop): step while
`instruction_result == Continue`.  One step of the caller-supplied
instruction table (closed over the host) is abstracted as `stepFn`; `fuel`
bounds the number of iterations (`none` = still running). -/
def legacyLoop (stepFn : Interpreter → Interpreter) :
    Nat → Interpreter → Option Interpreter
  | 0, s => if s.instruction_result = .Continue then none else some s
  | fuel + 1, s =>
    if s.instruction_result = .Continue then legacyLoop stepFn fuel (stepFn s)
    else some s

/-- From the source: the RISC-mode body of `run`: resumption hand-off, then
the trap loop; returns the driver state (with the emulator written back) and
the deferred resize request. -/
def riscRun (host : Host) (s : Interpreter) (rv : RVEmu) :
    Option (Interpreter × Option Nat) :=
  (handOff s.shared_memory rv).bind (fun rv1 =>
    (trapLoop host s.gas s.shared_memory.length s.contract.target_address
        rv1.emu.script
        ⟨rv1.emu.xregs, rv1.emu.dram, rv1.returned_data_destiny, s.next_action,
          s.instruction_result, none⟩).map (fun out =>
      ({ s with
        riscv_emulator := some ⟨⟨out.1.xregs, out.1.dram, out.2⟩, out.1.destiny⟩
        next_action := out.1.next_action
        instruction_result := out.1.instruction_result }, out.1.resizeMem)))

/-- From the source: the engine dispatch at the top of `run`: a present RISC
emulator routes to the trap loop, otherwise the stack-VM step loop runs (no
deferred resize arises there). -/
def engineRun (fuel : Nat) (stepFn : Interpreter → Interpreter) (host : Host)
    (s : Interpreter) : Option (Interpreter × Option Nat) :=
  match s.riscv_emulator with
  | some rv => riscRun host s rv
  | none => (legacyLoop stepFn fuel s).map (fun e => (e, none))

/-- From the source: apply a deferred memory resize after the loop;
`assert!(self.resize_memory(new_size))` panics (`none`) when the gas did not
suffice. -/
def applyResize (p : Interpreter × Option Nat) : Option Interpreter :=
  match p.2 with
  | none => some p.1
  | some new_size =>
    if (resize_memory p.1.shared_memory p.1.gas new_size).1 then
      some { p.1 with
        shared_memory := (resize_memory p.1.shared_memory p.1.gas new_size).2.1
        gas := (resize_memory p.1.shared_memory p.1.gas new_size).2.2 }
    else none

/-- From the source: the tail of `run`: a non-`None` pending action is taken
(moved out) and returned as a suspension; otherwise a `Return` action is
built from the current instruction result, an empty output and the current
gas meter (a halt). -/
def finishRun (s : Interpreter) : InterpreterAction × Interpreter :=
  if s.next_action.is_some then (s.next_action, { s with next_action := .None })
  else (.Return ⟨s.instruction_result, [], s.gas⟩, s)

/-- The state of `run` after the engine loop and the deferred resize, before
the final action is produced. -/
def runCore (fuel : Nat) (stepFn : Interpreter → Interpreter) (host : Host)
    (memory : List Nat) (s : Interpreter) : Option Interpreter :=
  (engineRun fuel stepFn host
    { s with next_action := .None, shared_memory := memory }).bind applyResize

/-- From the source: `Interpreter::run`: clear the pending action, take
ownership of the caller's memory, run the engine, apply any deferred resize,
and emit a suspension or a halt. -/
def Interpreter.run (s : Interpreter) (fuel : Nat)
    (stepFn : Interpreter → Interpreter) (host : Host) (memory : List Nat) :
    Option (InterpreterAction × Interpreter) :=
  (runCore fuel stepFn host memory s).map finishRun

theorem InterpreterAction.is_some_iff (a : InterpreterAction) :
    a.is_some = true ↔ a ≠ .None := by
  cases a <;> simp [InterpreterAction.is_some]

theorem legacyLoop_result (stepFn : Interpreter → Interpreter) :
    ∀ fuel s e, legacyLoop stepFn fuel s = some e →
      e.instruction_result ≠ .Continue := by
  intro fuel
  induction fuel with
  | zero =>
    intro s e h
    by_cases hc : s.instruction_result = .Continue
    · simp [legacyLoop, hc] at h
    · simp only [legacyLoop, hc, if_false, Option.some.injEq] at h
      rw [← h]
      exact hc
  | succ n ih =>
    intro s e h
    by_cases hc : s.instruction_result = .Continue
    · simp only [legacyLoop, hc, if_true, if_pos] at h
      exact ih (stepFn s) e h
    · simp only [legacyLoop, hc, if_false, Option.some.injEq] at h
      rw [← h]
      exact hc

theorem trapLoop_none_action_result (host : Host) (gas : Gas) (memLen target : Nat) :
    ∀ script L L' rest, trapLoop host gas memLen target script L = some (L', rest) →
      L'.next_action = .None → L'.instruction_result = .Revert := by
  intro script
  induction script with
  | nil =>
    intro L L' rest h _
    simp only [trapLoop, Option.some.injEq, Prod.mk.injEq] at h
    rw [← h.1]
  | cons r rest0 ih =>
    intro L L' rest h hna
    cases r with
    | nonEcall =>
      simp only [trapLoop, Option.some.injEq, Prod.mk.injEq] at h
      rw [← h.1]
    | ecall xs =>
      simp only [trapLoop] at h
      split at h
      · -- t0 = 0
        split at h
        · cases h
        · simp only [Option.some.injEq, Prod.mk.injEq] at h
          rw [← h.1] at hna
          simp at hna
      · split at h
        · -- t0 = 1
          split at h
          · exact ih _ L' rest h hna
          · simp only [Option.some.injEq, Prod.mk.injEq] at h
            rw [← h.1]
        · split at h
          · -- t0 = 2
            exact ih _ L' rest h hna
          · split at h
            · -- t0 = 3
              split at h
              · cases h
              · split at h
                · cases h
                · exact ih _ L' rest h hna
            · split at h
              · -- t0 = 4
                simp only [Option.some.injEq, Prod.mk.injEq] at h
                rw [← h.1] at hna
                simp at hna
              · simp only [Option.some.injEq, Prod.mk.injEq] at h
                rw [← h.1]

theorem trapLoop_call_inv (host : Host) (gas : Gas) (memLen target : Nat) :
    ∀ script L L' rest, trapLoop host gas memLen target script L = some (L', rest) →
      (∀ ci, L.next_action = .Call ci →
        ci.is_static = false ∧ ci.scheme = .Call ∧ ci.caller = target ∧
        ∃ d1 d2, L.destiny = some (d1, d2) ∧
          ci.return_memory_offset = (0, d2 - d1)) →
      (∀ ci, L'.next_action = .Call ci →
        ci.is_static = false ∧ ci.scheme = .Call ∧ ci.caller = target ∧
        ∃ d1 d2, L'.destiny = some (d1, d2) ∧
          ci.return_memory_offset = (0, d2 - d1)) := by
  intro script
  induction script with
  | nil =>
    intro L L' rest h hinv
    simp only [trapLoop, Option.some.injEq, Prod.mk.injEq] at h
    rw [← h.1]
    exact hinv
  | cons r rest0 ih =>
    intro L L' rest h hinv
    cases r with
    | nonEcall =>
      simp only [trapLoop, Option.some.injEq, Prod.mk.injEq] at h
      rw [← h.1]
      exact hinv
    | ecall xs =>
      simp only [trapLoop] at h
      split at h
      · -- t0 = 0: sets next_action to a Return
        split at h
        · cases h
        · simp only [Option.some.injEq, Prod.mk.injEq] at h
          rw [← h.1]
          intro ci hci
          simp at hci
      · split at h
        · -- t0 = 1
          split at h
          · refine ih _ L' rest h ?_
            intro ci hci
            exact hinv ci hci
          · simp only [Option.some.injEq, Prod.mk.injEq] at h
            rw [← h.1]
            intro ci hci
            exact hinv ci hci
        · split at h
          · -- t0 = 2
            refine ih _ L' rest h ?_
            intro ci hci
            exact hinv ci hci
          · split at h
            · -- t0 = 3: sets next_action to the assembled Call
              split at h
              · cases h
              · split at h
                · cases h
                · refine ih _ L' rest h ?_
                  intro ci hci
                  simp only [InterpreterAction.Call.injEq] at hci
                  rw [← hci]
                  refine ⟨rfl, rfl, rfl, xread xs 14, xread xs 14 + xread xs 15,
                    rfl, ?_⟩
                  simp
            · split at h
              · -- t0 = 4
                simp only [Option.some.injEq, Prod.mk.injEq] at h
                rw [← h.1]
                intro ci hci
                simp at hci
              · simp only [Option.some.injEq, Prod.mk.injEq] at h
                rw [← h.1]
                intro ci hci
                exact hinv ci hci

theorem applyResize_fields (p : Interpreter × Option Nat) (e : Interpreter)
    (h : applyResize p = some e) :
    e.next_action = p.1.next_action ∧
    e.instruction_result = p.1.instruction_result ∧
    e.riscv_emulator = p.1.riscv_emulator := by
  obtain ⟨s0, rm⟩ := p
  cases rm with
  | none =>
    simp only [applyResize, Option.some.injEq] at h
    rw [← h]
    exact ⟨rfl, rfl, rfl⟩
  | some n =>
    simp only [applyResize] at h
    by_cases hb : (resize_memory s0.shared_memory s0.gas n).1 = true
    · rw [if_pos hb] at h
      simp only [Option.some.injEq] at h
      rw [← h]
      exact ⟨rfl, rfl, rfl⟩
    · rw [if_neg hb] at h
      cases h

theorem engineRun_risc (fuel : Nat) (stepFn : Interpreter → Interpreter)
    (host : Host) (s : Interpreter) (rv : RVEmu) (h : s.riscv_emulator = some rv) :
    engineRun fuel stepFn host s = riscRun host s rv := by
  unfold engineRun
  rw [h]

theorem engineRun_legacy (fuel : Nat) (stepFn : Interpreter → Interpreter)
    (host : Host) (s : Interpreter) (h : s.riscv_emulator = none) :
    engineRun fuel stepFn host s =
      (legacyLoop stepFn fuel s).map (fun e => (e, none)) := by
  unfold engineRun
  rw [h]

theorem riscRun_elim (host : Host) (s : Interpreter) (rv : RVEmu)
    (e : Interpreter) (rm : Option Nat) (h : riscRun host s rv = some (e, rm)) :
    ∃ rv1 L rest, handOff s.shared_memory rv = some rv1 ∧
      trapLoop host s.gas s.shared_memory.length s.contract.target_address
        rv1.emu.script
        ⟨rv1.emu.xregs, rv1.emu.dram, rv1.returned_data_destiny, s.next_action,
          s.instruction_result, none⟩ = some (L, rest) ∧
      e = { s with
        riscv_emulator := some ⟨⟨L.xregs, L.dram, rest⟩, L.destiny⟩
        next_action := L.next_action
        instruction_result := L.instruction_result } ∧
      rm = L.resizeMem := by
  unfold riscRun at h
  rw [Option.bind_eq_some] at h
  obtain ⟨rv1, hh, h⟩ := h
  rw [Option.map_eq_some'] at h
  obtain ⟨out, ht, he⟩ := h
  obtain ⟨L, rest⟩ := out
  simp only [Prod.mk.injEq] at he
  exact ⟨rv1, L, rest, hh, ht, he.1.symm, he.2.symm⟩

/-- Concrete register file issuing a Call syscall: `t0 = 3`, callee address
pointer `a0 = 0`, value `a1 = 1`, args at `20..22`, return range `50..50`. -/
def exCallRegs : List Nat := [0, 0, 0, 0, 0, 3, 0, 0, 0, 0, 0, 1, 20, 2, 50, 0]

/-- Concrete emulator DRAM: 22 bytes. -/
def exDram : List Nat := List.replicate 22 7

/-- Concrete host: empty storage, transaction gas limit 77. -/
def exHost : Host := ⟨fun _ _ => none, 77⟩

/-- Concrete RISC driver whose guest issues a Call syscall and then a Return
syscall (register file defaults to zero: `t0 = 0`, `a1 = 0`). -/
def c2State : Interpreter :=
  { baseInterp with
    riscv_emulator := some ⟨⟨[], exDram, [.ecall exCallRegs, .ecall []]⟩, none⟩ }

/-- Concrete RISC driver in static mode whose guest issues one Call syscall. -/
def c8State : Interpreter :=
  { baseInterp with
    is_static := true
    riscv_emulator := some ⟨⟨[], exDram, [.ecall exCallRegs]⟩, none⟩ }

/-- Concrete one-step instruction table: the handler halts with `Stop`. -/
def c5StepStop : Interpreter → Interpreter :=
  fun s => { s with instruction_result := .Stop }

/-- Concrete contract with the RISC sentinel leading byte. -/
def c4RiscContract : Contract := ⟨[], [0xFF, 1, 2], 5, 6, 0, false⟩

/-- Concrete contract with a non-sentinel leading byte. -/
def c4LegacyContract : Contract := ⟨[], [0x00], 5, 6, 0, false⟩

theorem run_call_core (s : Interpreter) (rv : RVEmu) (fuel : Nat)
    (stepFn : Interpreter → Interpreter) (host : Host) (memory : List Nat)
    (ci : CallInputs) (s' : Interpreter)
    (hrv : s.riscv_emulator = some rv)
    (h : s.run fuel stepFn host memory = some (.Call ci, s')) :
    ci.is_static = false ∧ ci.scheme = .Call ∧
    ci.caller = s.contract.target_address ∧
    ∃ rv' d1 d2, s'.riscv_emulator = some rv' ∧
      rv'.returned_data_destiny = some (d1, d2) ∧
      ci.return_memory_offset = (0, d2 - d1) := by
  unfold Interpreter.run at h
  rw [Option.map_eq_some'] at h
  obtain ⟨e, hc, hf⟩ := h
  have hfin : e.next_action = .Call ci ∧ s'.riscv_emulator = e.riscv_emulator := by
    unfold finishRun at hf
    by_cases hb : e.next_action.is_some = true
    · rw [if_pos hb] at hf
      simp only [Prod.mk.injEq] at hf
      refine ⟨hf.1, ?_⟩
      rw [← hf.2]
    · rw [if_neg hb] at hf
      simp only [Prod.mk.injEq] at hf
      exact absurd hf.1 (by simp)
  obtain ⟨hna, hrisc⟩ := hfin
  unfold runCore at hc
  rw [Option.bind_eq_some] at hc
  obtain ⟨pp, heng, happ⟩ := hc
  have hpre : ({ s with next_action := .None, shared_memory := memory } :
      Interpreter).riscv_emulator = some rv := hrv
  rw [engineRun_risc _ _ _ _ rv hpre] at heng
  obtain ⟨pe, prm⟩ := pp
  obtain ⟨rv1, L, rest, hh, ht, hpe, hprm⟩ := riscRun_elim _ _ _ _ _ heng
  obtain ⟨hA, hI, hR⟩ := applyResize_fields _ _ happ
  have hLa : L.next_action = .Call ci := by
    calc L.next_action = pe.next_action := by rw [hpe]
      _ = e.next_action := hA.symm
      _ = .Call ci := hna
  have hinv := trapLoop_call_inv host _ _ _ _ _ L rest ht
    (fun ci' hci' =>
      absurd (show InterpreterAction.None = .Call ci' from hci') (by simp))
    ci hLa
  obtain ⟨hst, hsch, hcall, d1, d2, hdest, hoff⟩ := hinv
  refine ⟨hst, hsch, hcall, ⟨⟨L.xregs, L.dram, rest⟩, L.destiny⟩, d1, d2, ?_,
    hdest, hoff⟩
  rw [hrisc, hR, hpe]

/-- C8: for every RISC Call syscall suspension, the emitted `CallInputs`
always have `is_static = false`, `scheme = Call` and `caller` equal to the
contract's `target_address`, regardless of the driver's own `is_static`
flag, which is never propagated into RISC-originated sub-calls. -/
theorem run_call_inputs_spec (s : Interpreter) (rv : RVEmu) (fuel : Nat)
    (stepFn : Interpreter → Interpreter) (host : Host) (memory : List Nat)
    (ci : CallInputs) (s' : Interpreter)
    (hrv : s.riscv_emulator = some rv)
    (h : s.run fuel stepFn host memory = some (.Call ci, s')) :
    ci.is_static = false ∧ ci.scheme = .Call ∧
    ci.caller = s.contract.target_address := by
  obtain ⟨h1, h2, h3, _⟩ := run_call_core s rv fuel stepFn host memory ci s' hrv h
  exact ⟨h1, h2, h3⟩

/-- C9: every RISC Call suspension's `return_memory_offset` is the range
`0..ret_size` (where the recorded `returned_data_destiny` spans `ret_size`
bytes), and the resumption hand-off copies exactly the destiny's length of
bytes from the start of shared memory into the emulator's DRAM at the
destiny range and clears `returned_data_destiny`. -/
theorem run_call_return_offset_spec :
    (∀ (s : Interpreter) (rv : RVEmu) (fuel : Nat)
        (stepFn : Interpreter → Interpreter) (host : Host) (memory : List Nat)
        (ci : CallInputs) (s' : Interpreter),
      s.riscv_emulator = some rv →
      s.run fuel stepFn host memory = some (.Call ci, s') →
      ∃ rv' d1 d2, s'.riscv_emulator = some rv' ∧
        rv'.returned_data_destiny = some (d1, d2) ∧
        ci.return_memory_offset = (0, d2 - d1)) ∧
    (∀ (memory : List Nat) (rv : RVEmu) (a b : Nat),
      rv.returned_data_destiny = some (a, b) →
      a ≤ b → b ≤ rv.emu.dram.length → b - a ≤ memory.length →
      ∃ rv', handOff memory rv = some rv' ∧
        rv'.returned_data_destiny = none ∧
        rv'.emu.xregs = rv.emu.xregs ∧
        rv'.emu.script = rv.emu.script ∧
        rv'.emu.dram =
          rv.emu.dram.take a ++ memory.take (b - a) ++ rv.emu.dram.drop b) := by
  constructor
  · intro s rv fuel stepFn host memory ci s' hrv h
    exact (run_call_core s rv fuel stepFn host memory ci s' hrv h).2.2.2
  · intro memory rv a b hdest hab hblen hmem
    obtain ⟨⟨xr, dr, sc⟩, dest⟩ := rv
    simp only at hdest hblen
    subst hdest
    have hdram : getDramSlice dr a b = some ((dr.drop a).take (b - a)) := by
      simp [getDramSlice, hab, hblen]
    have hdlen : ((dr.drop a).take (b - a)).length = b - a := by
      rw [List.length_take, List.length_drop]
      omega
    have hslice : memSlice memory 0 ((dr.drop a).take (b - a)).length =
        some (memory.take (b - a)) := by
      rw [hdlen]
      unfold memSlice
      rw [if_pos (by omega), List.drop_zero]
    refine ⟨⟨⟨xr, writeDram dr a (memory.take (b - a)), sc⟩, none⟩, ?_, rfl, rfl,
      rfl, ?_⟩
    · have hred : handOff memory ⟨⟨xr, dr, sc⟩, some (a, b)⟩ =
          (getDramSlice dr a b).bind (fun data =>
            (memSlice memory 0 data.length).map (fun copied =>
              (⟨⟨xr, writeDram dr a copied, sc⟩, none⟩ : RVEmu))) := rfl
      rw [hred, Option.bind_eq_some]
      refine ⟨(dr.drop a).take (b - a), hdram, ?_⟩
      rw [Option.map_eq_some']
      exact ⟨memory.take (b - a), hslice, rfl⟩
    · show writeDram dr a (memory.take (b - a)) =
        dr.take a ++ memory.take (b - a) ++ dr.drop b
      unfold writeDram
      have h1 : (memory.take (b - a)).length = b - a := by
        rw [List.length_take]
        omega
      rw [h1, show a + (b - a) = b from by omega]

/-- Witness for C8 at a concrete input: a RISC driver constructed with
`is_static = true` whose script issues a single Call syscall. -/
theorem run_call_inputs_spec_witness :
    ∃ ci s', c8State.run 0 id exHost [] = some (.Call ci, s') ∧
      ci.is_static = false ∧ ci.scheme = .Call ∧
      ci.caller = c8State.contract.target_address ∧
      c8State.is_static = true := by
  obtain ⟨ci, s', hr⟩ : ∃ ci s', c8State.run 0 id exHost [] = some (.Call ci, s') :=
    ⟨_, _, rfl⟩
  have h := run_call_inputs_spec c8State ⟨⟨[], exDram, [.ecall exCallRegs]⟩, none⟩
    0 id exHost [] ci s' rfl hr
  exact ⟨ci, s', hr, h.1, h.2.1, h.2.2, rfl⟩

/-- Witness for C9 at concrete inputs: the Call suspension of `c8State` and a
concrete hand-off writing two bytes into DRAM range `1..3`. -/
theorem run_call_return_offset_spec_witness :
    (∃ ci s' rv' d1 d2, c8State.run 0 id exHost [] = some (.Call ci, s') ∧
      s'.riscv_emulator = some rv' ∧
      rv'.returned_data_destiny = some (d1, d2) ∧
      ci.return_memory_offset = (0, d2 - d1)) ∧
    (∃ rv', handOff [1, 2, 3] ⟨⟨[], [9, 9, 9, 9], []⟩, some (1, 3)⟩ = some rv' ∧
      rv'.returned_data_destiny = none ∧
      rv'.emu.dram = [9, 1, 2, 9]) := by
  constructor
  · obtain ⟨ci, s', hr⟩ : ∃ ci s',
        c8State.run 0 id exHost [] = some (.Call ci, s') := ⟨_, _, rfl⟩
    obtain ⟨rv', d1, d2, h1, h2, h3⟩ := run_call_return_offset_spec.1 c8State
      ⟨⟨[], exDram, [.ecall exCallRegs]⟩, none⟩ 0 id exHost [] ci s' rfl hr
    exact ⟨ci, s', rv', d1, d2, hr, h1, h2, h3⟩
  · obtain ⟨rv', h1, h2, _, _, h5⟩ := run_call_return_offset_spec.2
      [1, 2, 3] ⟨⟨[], [9, 9, 9, 9], []⟩, some (1, 3)⟩ 1 3 rfl (by decide)
      (by decide) (by decide)
    exact ⟨rv', h1, h2, h5.trans (by decide)⟩

/-- C5: every `run` that returns yields either the taken non-`None` pending
action (a suspension) or a `Return` action built from the post-loop
`instruction_result`, an empty output and the gas meter (a halt); the halt
case never occurs while `instruction_result` is still `Continue`. -/
theorem run_halt_or_suspend (fuel : Nat) (stepFn : Interpreter → Interpreter)
    (host : Host) (memory : List Nat) (s : Interpreter) (a : InterpreterAction)
    (s' : Interpreter) (h : s.run fuel stepFn host memory = some (a, s')) :
    a ≠ .None ∧
    ∃ e, runCore fuel stepFn host memory s = some e ∧
      ((e.next_action ≠ .None ∧ a = e.next_action) ∨
        (e.next_action = .None ∧ e.instruction_result ≠ .Continue ∧
          a = .Return ⟨e.instruction_result, [], e.gas⟩)) := by
  unfold Interpreter.run at h
  rw [Option.map_eq_some'] at h
  obtain ⟨e, hc, hf⟩ := h
  have hkey : e.next_action = .None → e.instruction_result ≠ .Continue := by
    intro hna
    unfold runCore at hc
    rw [Option.bind_eq_some] at hc
    obtain ⟨pp, heng, happ⟩ := hc
    obtain ⟨pe, prm⟩ := pp
    obtain ⟨hA, hI, hR⟩ := applyResize_fields _ _ happ
    cases hrv : ({ s with next_action := .None, shared_memory := memory } :
        Interpreter).riscv_emulator with
    | some rv =>
      rw [engineRun_risc _ _ _ _ rv hrv] at heng
      obtain ⟨rv1, L, rest, hh, ht, hpe, hprm⟩ := riscRun_elim _ _ _ _ _ heng
      have hLa : L.next_action = .None := by
        calc L.next_action = pe.next_action := by rw [hpe]
          _ = e.next_action := hA.symm
          _ = .None := hna
      have hrev := trapLoop_none_action_result host _ _ _ _ _ _ _ ht hLa
      have hIr : e.instruction_result = .Revert := by
        calc e.instruction_result = pe.instruction_result := hI
          _ = L.instruction_result := by rw [hpe]
          _ = .Revert := hrev
      rw [hIr]
      decide
    | none =>
      rw [engineRun_legacy _ _ _ _ hrv] at heng
      rw [Option.map_eq_some'] at heng
      obtain ⟨e0, hl, hpe⟩ := heng
      have hstop := legacyLoop_result stepFn fuel _ e0 hl
      have hIr : e.instruction_result = e0.instruction_result := by
        rw [hI, ← hpe]
      rw [hIr]
      exact hstop
  unfold finishRun at hf
  by_cases hb : e.next_action.is_some = true
  · rw [if_pos hb] at hf
    simp only [Prod.mk.injEq] at hf
    have hne := (InterpreterAction.is_some_iff e.next_action).mp hb
    exact ⟨hf.1 ▸ hne, e, hc, Or.inl ⟨hne, hf.1.symm⟩⟩
  · rw [if_neg hb] at hf
    simp only [Prod.mk.injEq] at hf
    have hna : e.next_action = .None := by
      by_contra hcon
      exact hb ((InterpreterAction.is_some_iff e.next_action).mpr hcon)
    refine ⟨?_, e, hc, Or.inr ⟨hna, hkey hna, hf.1.symm⟩⟩
    rw [← hf.1]
    simp

/-- Witness for C5 at a concrete input: a legacy halt after one step. -/
theorem run_halt_or_suspend_witness :
    ∃ a s', baseInterp.run 1 c5StepStop exHost [] = some (a, s') ∧
      a ≠ .None := by
  obtain ⟨a, s', h⟩ : ∃ a s',
      baseInterp.run 1 c5StepStop exHost [] = some (a, s') := ⟨_, _, rfl⟩
  exact ⟨a, s', h, (run_halt_or_suspend 1 c5StepStop exHost [] baseInterp a s' h).1⟩

/-- C4: a contract whose first bytecode byte is `0xFF` is given a RISC
emulator at construction (and only then), a driver holding an emulator runs
independently of the stack-VM instruction table and step fuel (the stack VM
is never invoked), and a driver without an emulator runs exactly the
stack-VM pipeline (the RISC adapter is never invoked) — so at most one of
the two engines is invoked in a single `run`. -/
theorem engine_routing_spec :
    (∀ (c : Contract) (glimit : Nat) (stflag : Bool) (i : Interpreter),
      Interpreter.new c glimit stflag = some i →
      (i.riscv_emulator.isSome = true ↔ c.bytecode.head? = some 0xFF)) ∧
    (∀ (s : Interpreter) (rv : RVEmu) (fuel₁ fuel₂ : Nat)
        (f₁ f₂ : Interpreter → Interpreter) (host : Host) (memory : List Nat),
      s.riscv_emulator = some rv →
      s.run fuel₁ f₁ host memory = s.run fuel₂ f₂ host memory) ∧
    (∀ (s : Interpreter) (fuel : Nat) (f : Interpreter → Interpreter)
        (host : Host) (memory : List Nat), s.riscv_emulator = none →
      s.run fuel f host memory =
        (legacyLoop f fuel
          { s with next_action := .None, shared_memory := memory }).map
          finishRun) := by
  refine ⟨?_, ?_, ?_⟩
  · intro c glimit stflag i h
    unfold Interpreter.new at h
    cases hb : c.bytecode with
    | nil =>
      rw [hb] at h
      cases h
    | cons b0 restb =>
      rw [hb] at h
      simp only [Option.some.injEq] at h
      rw [← h]
      by_cases h0 : b0 = 0xFF
      · simp [h0]
      · simp [h0]
  · intro s rv fuel₁ fuel₂ f₁ f₂ host memory hrv
    have hpre : ({ s with next_action := .None, shared_memory := memory } :
        Interpreter).riscv_emulator = some rv := hrv
    unfold Interpreter.run runCore
    rw [engineRun_risc fuel₁ f₁ host _ rv hpre,
      engineRun_risc fuel₂ f₂ host _ rv hpre]
  · intro s fuel f host memory hrv
    have hpre : ({ s with next_action := .None, shared_memory := memory } :
        Interpreter).riscv_emulator = none := hrv
    unfold Interpreter.run runCore
    rw [engineRun_legacy fuel f host _ hpre]
    cases hl : legacyLoop f fuel
        { s with next_action := .None, shared_memory := memory } with
    | none => rfl
    | some e0 => rfl

/-- Witness for C4 at concrete inputs. -/
theorem engine_routing_spec_witness :
    (∃ i, Interpreter.new c4RiscContract 9 false = some i ∧
      i.riscv_emulator.isSome = true) ∧
    (∃ i2, Interpreter.new c4LegacyContract 9 false = some i2 ∧
      i2.riscv_emulator.isSome = false) ∧
    (c8State.run 3 c5StepStop exHost [] = c8State.run 7 id exHost []) ∧
    (baseInterp.run 2 c5StepStop exHost [] =
      (legacyLoop c5StepStop 2
        { baseInterp with next_action := .None, shared_memory := [] }).map
        finishRun) := by
  refine ⟨?_, ?_, ?_, ?_⟩
  · obtain ⟨i, hi⟩ : ∃ i, Interpreter.new c4RiscContract 9 false = some i :=
      ⟨_, rfl⟩
    exact ⟨i, hi, (engine_routing_spec.1 c4RiscContract 9 false i hi).mpr rfl⟩
  · obtain ⟨i2, hi2⟩ : ∃ i2, Interpreter.new c4LegacyContract 9 false = some i2 :=
      ⟨_, rfl⟩
    refine ⟨i2, hi2, ?_⟩
    have hiff := engine_routing_spec.1 c4LegacyContract 9 false i2 hi2
    by_cases hbool : i2.riscv_emulator.isSome = true
    · exact absurd (hiff.mp hbool) (by decide)
    · simpa using hbool
  · exact engine_routing_spec.2.1 c8State ⟨⟨[], exDram, [.ecall exCallRegs]⟩, none⟩
      3 7 c5StepStop id exHost [] rfl
  · exact engine_routing_spec.2.2 baseInterp 2 c5StepStop exHost [] rfl

/-- C2 (code-bug evaluation): the source's Call syscall arm (t0 = 3) records
the destiny range, assembles the pending Call action with the transaction gas
limit — but does NOT break out of the trap loop.  At this concrete input the
emulator's next trap is a Return syscall, which overwrites the pending Call:
`run` returns the Return action, not the Call suspension the spec describes,
even though the Call syscall demonstrably fired (its destiny range is
recorded in the post-state). -/
theorem run_call_syscall_missing_break :
    ((c2State.run 0 id exHost []).map Prod.fst)
      = some (.Return ⟨.Return, [], ⟨1000, 0⟩⟩) ∧
    ((c2State.run 0 id exHost []).map
        (fun p => p.2.riscv_emulator.map RVEmu.returned_data_destiny))
      = some (some (some (50, 50))) := by
  exact ⟨rfl, rfl⟩

end Revm
